import Mathlib

/-!
Verification of the document-grounding (RAG) subsystem of MachinaMind_AI_Agent.

The subsystem's implementation is given as Python code in the repository's
RAG guide (`chunk_text`, class `RAGManager` with `add_documents`, `retrieve`,
`index_directory`, `_save_index`, `_load_index`, and `setup_rag`).  This file
is a shallow embedding of that code: strings are lists of characters, Python
integer indices are `Int` with Python's negative-index and clamping rules,
floating-point scores are modelled exactly over `ℚ`, the filesystem store is
an explicit record of the three artifact files, and the unbounded `while`
loop of the chunker is given a fuel parameter (`none` = the loop did not
finish within the fuel).  The embedding keeps the source's evaluation order
and its behaviour on edge cases (negative slice indices, `str.split` on the
empty string, `"\n".join` raising `TypeError` on non-string items, attribute
access on a `None` index).
-/

/-- A Python string, as its list of characters. -/
abbrev Str := List Char

/-- An embedding vector; float entries are modelled exactly over `ℚ`. -/
abbrev Vec := List ℚ

/-- A metadata object attached to one entry (the `{"source": name}` dict,
represented by its source string, carried through untouched). -/
abbrev Metadata := Str

/-! ## Python string primitives -/

/-- The ASCII whitespace characters stripped by Python's `str.strip()`. -/
def pyIsSpace (c : Char) : Bool :=
  c = ' ' || c = '\t' || c = '\n' || c = '\r' || c = Char.ofNat 11 || c = Char.ofNat 12

/-- Python `str.strip()`: remove leading and trailing whitespace. -/
def pyStrip (s : Str) : Str :=
  ((s.dropWhile pyIsSpace).reverse.dropWhile pyIsSpace).reverse

/-- Convert a Python slice index to an absolute position in a string of
length `n`: negative indices count from the end, and the result is clamped
to `[0, n]`. -/
def sliceIdx (n : Nat) (i : Int) : Nat :=
  if i < 0 then (i + n).toNat else min i.toNat n

/-- Python slicing `s[a:b]` with full negative-index and clamping rules. -/
def pySlice (s : Str) (a b : Int) : Str :=
  (s.take (sliceIdx s.length b)).drop (sliceIdx s.length a)

/-- Python `s.rfind(sub, a, b)`: the highest index `i` with
`a' ≤ i`, `i + |sub| ≤ b'` (after slice-index conversion of `a`, `b`) at
which `sub` occurs in `s`, or `-1` when there is none. -/
def pyRfind (s sub : Str) (a b : Int) : Int :=
  let a' := sliceIdx s.length a
  let b' := sliceIdx s.length b
  ((List.range (s.length + 1)).filter
    (fun i => decide ((s.drop i).take sub.length = sub)
      && decide (a' ≤ i) && decide (i + sub.length ≤ b'))).foldl
    (fun _ i => (i : Int)) (-1)

/-- Python `content.split("\n")`: split at every newline; the empty string
yields `[""]`, so the result always has at least one element. -/
def pySplitNewline : Str → List Str
  | [] => [[]]
  | c :: rest =>
    match pySplitNewline rest with
    | [] => [[]]
    | h :: t => if c = '\n' then [] :: h :: t else (c :: h) :: t

/-- Python `"\n".join(items)` over a list of strings. -/
def joinNewline : List Str → Str
  | [] => []
  | [d] => d
  | d :: rest => d ++ '\n' :: joinNewline rest

/-! ## Chunker (`chunk_text`)

Source:
```
def chunk_text(text, chunk_size=500, overlap=50):
    chunks = []
    start = 0
    while start < len(text):
        end = start + chunk_size
        if end < len(text):
            for char in ['. ', '! ', '? ', '\n\n']:
                pos = text.rfind(char, start, end)
                if pos != -1:
                    end = pos + 1
                    break
        chunks.append(text[start:end].strip())
        start = end - overlap
    return chunks
```
-/

/-- The sentence-terminator sequences tried, in order: `". "`, `"! "`,
`"? "`, `"\n\n"`. -/
def termSeqs : List Str := [['.', ' '], ['!', ' '], ['?', ' '], ['\n', '\n']]

/-- The `for char in [...]` loop body: the first terminator found by
`rfind` in `[start, e)` moves the cut to just after it; otherwise `e` is
kept. -/
def adjustEnd (text : Str) (start e : Int) : Int :=
  (termSeqs.findSome? (fun t =>
    let pos := pyRfind text t start e
    if pos = -1 then none else some (pos + 1))).getD e

/-- The cut point of one iteration: `end = start + chunk_size`, moved back
to a sentence terminator only when `end < len(text)`. -/
def chunkEnd (text : Str) (cs start : Int) : Int :=
  if start + cs < (text.length : Int) then adjustEnd text start (start + cs)
  else start + cs

/-- The `while start < len(text)` loop of `chunk_text`, with fuel; `none`
means the loop did not terminate within the fuel. -/
def chunkTextLoop (text : Str) (cs ov : Int) : Nat → Int → List Str → Option (List Str)
  | 0, _, _ => none
  | fuel + 1, start, acc =>
    if start < (text.length : Int) then
      chunkTextLoop text cs ov fuel (chunkEnd text cs start - ov)
        (acc ++ [pyStrip (pySlice text start (chunkEnd text cs start))])
    else some acc

/-- `chunk_text(text, chunk_size, overlap)` with fuel. -/
def chunk_text (fuel : Nat) (text : Str) (cs ov : Int) : Option (List Str) :=
  chunkTextLoop text cs ov fuel 0 []

/-! ## Data model of `RAGManager` and its store

`self.documents` holds heterogeneous Python values: `_load_index` fills it
with plain strings (`f.read().split("\n")`), while `add_documents` extends
it with the *lists* returned by `self._chunk_text(t)` (the comprehension
`[self._chunk_text(t) for t in texts]` produces a list of chunk lists, and
`extend` appends those lists themselves). -/

/-- A value stored in `self.documents`: a plain string or a chunk list. -/
inductive PyDoc where
  | str (s : Str) : PyDoc
  | strList (l : List Str) : PyDoc
  deriving DecidableEq

/-- The Python exceptions the embedded code can raise.  The source defines
no exception classes of its own (in particular no `CorruptIndexError` and
no `ConfigurationError`); these are the built-ins its operations can hit. -/
inductive PyError where
  | typeError : PyError
  | attributeError : PyError
  | indexError : PyError
  | fileNotFound : PyError
  deriving DecidableEq

/-- The artifact files at the store path; `none` = the file does not exist.
`faiss.index` is modelled by its row vectors, `metadata.txt` by the list
`json.dump` wrote (JSON round-trips the metadata list unchanged). -/
structure Disk where
  faissFile : Option (List Vec)
  docsFile : Option Str
  metaFile : Option (List Metadata)
  deriving DecidableEq

/-- The in-memory `RAGManager` state plus the store-path filesystem. -/
structure RAGState where
  index : Option (List Vec)
  documents : List PyDoc
  metadata : List Metadata
  disk : Disk
  deriving DecidableEq

/-- A per-query retrieval result dict `{"text": ..., "score": ...,
"metadata": ...}`. -/
structure RetrievalResult where
  text : PyDoc
  score : ℚ
  metadata : Metadata
  deriving DecidableEq

instance {ε α : Type} [DecidableEq ε] [DecidableEq α] :
    DecidableEq (Except ε α) := fun a b =>
  match a, b with
  | Except.ok x, Except.ok y => decidable_of_iff (x = y) (by simp)
  | Except.error x, Except.error y => decidable_of_iff (x = y) (by simp)
  | Except.ok _, Except.error _ => isFalse (by simp)
  | Except.error _, Except.ok _ => isFalse (by simp)

/-! ## Persistence (`_save_index`, `_load_index`) -/

/-- `"\n".join` inspects each item: it raises `TypeError` on the first item
that is not a string, otherwise yields the list of strings to join. -/
def getStrs : List PyDoc → Except PyError (List Str)
  | [] => Except.ok []
  | PyDoc.str s :: rest => (getStrs rest).map (fun l => s :: l)
  | PyDoc.strList _ :: _ => Except.error PyError.typeError

/-- `_save_index`: writes `faiss.index`, then `documents.txt`, then
`metadata.txt`, in that order and in place.  `documents.txt` is written as
`with open(path, "w") as f: f.write("\n".join(self.documents))`: the
`open(..., "w")` truncates/creates the file *before* the join is
evaluated, so when the join raises `TypeError` the file is left existing
and empty, while the remaining `metadata.txt` write never happens.
Returns the resulting disk and the exception, if one was raised
part-way. -/
def saveIndex (st : RAGState) : Disk × Option PyError :=
  match st.index with
  | none => (st.disk, some PyError.typeError)
  | some rows =>
    let d1 : Disk := { st.disk with faissFile := some rows }
    match getStrs st.documents with
    | Except.error e => ({ d1 with docsFile := some [] }, some e)
    | Except.ok docs =>
      ({ d1 with docsFile := some (joinNewline docs),
                 metaFile := some st.metadata }, none)

/-- `_load_index`: returns unchanged when `faiss.index` does not exist;
otherwise reads all three artifacts (a missing `documents.txt` or
`metadata.txt` is then a `FileNotFoundError`), with no consistency check
between their counts. -/
def loadIndex (st : RAGState) : Except PyError RAGState :=
  match st.disk.faissFile with
  | none => Except.ok st
  | some rows =>
    match st.disk.docsFile with
    | none => Except.error PyError.fileNotFound
    | some content =>
      match st.disk.metaFile with
      | none => Except.error PyError.fileNotFound
      | some metas =>
        Except.ok { st with index := some rows,
                            documents := (pySplitNewline content).map PyDoc.str,
                            metadata := metas }

/-- `RAGManager.__init__`: fresh empty fields, then `self._load_index()`. -/
def ragManagerInit (disk : Disk) : Except PyError RAGState :=
  loadIndex { index := none, documents := [], metadata := [], disk := disk }

/-! ## Ingestion (`add_documents`, `index_directory`) -/

/-- The comprehension `[self._chunk_text(t) for t in texts]`; `none` when
some chunking run did not terminate within the fuel. -/
def chunkAll (fuel : Nat) (cs ov : Int) : List Str → Option (List (List Str))
  | [] => some []
  | t :: ts =>
    match chunk_text fuel t cs ov, chunkAll fuel cs ov ts with
    | some c, some rest => some (c :: rest)
    | _, _ => none

/-- `add_documents(texts, metadatas)` with the embedding capability
`encode` injected: chunk each text, embed each chunk list, append the
embeddings to the index (creating it when `None`), extend `documents` with
the chunk lists and `metadata` with `metadatas`, then `_save_index`.
Returns the new state (in-memory mutations persist even when the save
raises) and the propagated exception, if any. -/
def add_documents (encode : PyDoc → Vec) (fuel : Nat) (cs ov : Int)
    (st : RAGState) (texts : List Str) (metadatas : List Metadata) :
    Option (RAGState × Option PyError) :=
  match chunkAll fuel cs ov texts with
  | none => none
  | some chunkLists =>
    let chunks : List PyDoc := chunkLists.map PyDoc.strList
    let st1 : RAGState :=
      { st with index := some (st.index.getD [] ++ chunks.map encode),
                documents := st.documents ++ chunks,
                metadata := st.metadata ++ metadatas }
    let r := saveIndex st1
    some ({ st1 with disk := r.1 }, r.2)

/-- `index_directory(path, pattern)`: for each found file (given here as a
`(name, extracted text)` pair), call
`add_documents(texts=[text], metadatas=[{"source": name}])` with the
default chunking parameters `500`/`50`; an exception aborts the loop. -/
def index_directory (encode : PyDoc → Vec) (fuel : Nat) :
    RAGState → List (Str × Str) → Option (RAGState × Option PyError)
  | st, [] => some (st, none)
  | st, (name, text) :: rest =>
    match add_documents encode fuel 500 50 st [text] [name] with
    | none => none
    | some r =>
      match r.2 with
      | some e => some (r.1, some e)
      | none => index_directory encode fuel r.1 rest

/-! ## Retrieval (`retrieve`) -/

/-- Squared Euclidean (L2) distance between two vectors. -/
def sqDist (q v : Vec) : ℚ :=
  ((q.zip v).map (fun p => (p.1 - p.2) ^ 2)).sum

/-- The distance-to-score conversion `score = 1.0 / (1.0 + d)`. -/
def distScore (d : ℚ) : ℚ := 1 / (1 + d)

/-- Ordering of search hits `(distance, ordinal)`: by ascending distance,
ties by ascending ordinal. -/
def hitLe (a b : ℚ × Nat) : Prop :=
  a.1 < b.1 ∨ (a.1 = b.1 ∧ a.2 ≤ b.2)

instance : DecidableRel hitLe := fun a b => by
  unfold hitLe; infer_instance

instance : IsTotal (ℚ × Nat) hitLe :=
  ⟨fun a b => by
    rcases lt_trichotomy a.1 b.1 with h | h | h
    · exact Or.inl (Or.inl h)
    · rcases Nat.le_total a.2 b.2 with h2 | h2
      · exact Or.inl (Or.inr ⟨h, h2⟩)
      · exact Or.inr (Or.inr ⟨h.symm, h2⟩)
    · exact Or.inr (Or.inl h)⟩

instance : IsTrans (ℚ × Nat) hitLe :=
  ⟨fun a b c hab hbc => by
    rcases hab with h1 | ⟨h1, h1'⟩
    · rcases hbc with h2 | ⟨h2, _⟩
      · exact Or.inl (h1.trans h2)
      · exact Or.inl (h2 ▸ h1)
    · rcases hbc with h2 | ⟨h2, h2'⟩
      · exact Or.inl (h1 ▸ h2)
      · exact Or.inr ⟨h1.trans h2, h1'.trans h2'⟩⟩

/-- The distances of the query to every stored vector, paired with the
ordinals `0, …, n-1`. -/
def scoredOf (q : Vec) (rows : List Vec) : List (ℚ × Nat) :=
  (List.range rows.length).map (fun i => (sqDist q (rows.getD i []), i))

/-- Modelled from the spec: the FAISS `IndexFlatL2` exact search used by
`retrieve` (`self.index.search`).  FAISS is an external library whose code
is not part of this repository; per the spec it returns the nearest
entries by ascending squared-L2 distance, ties broken by ascending
ordinal, at most `k` of them (the sentinel padding FAISS emits when `k`
exceeds the entry count is not modelled). -/
def faissSearch (rows : List Vec) (q : Vec) (k : Int) : List (ℚ × Nat) :=
  (List.insertionSort hitLe (scoredOf q rows)).take k.toNat

/-- The result dict built for one hit (only evaluated at in-range
ordinals). -/
def mkResult (docs : List PyDoc) (metas : List Metadata) (p : ℚ × Nat) :
    RetrievalResult :=
  { text := (docs.get? p.2).getD (PyDoc.str []),
    score := distScore p.1,
    metadata := (metas.get? p.2).getD [] }

/-- The result-formatting loop of `retrieve`: for each hit, look up
`self.documents[idx]` and `self.metadata[idx]` (an out-of-range ordinal
raises `IndexError`) and record the scored result. -/
def formatResults (docs : List PyDoc) (metas : List Metadata) :
    List (ℚ × Nat) → Except PyError (List RetrievalResult)
  | [] => Except.ok []
  | p :: rest =>
    if (docs.get? p.2).isSome ∧ (metas.get? p.2).isSome then
      (formatResults docs metas rest).map (fun l => mkResult docs metas p :: l)
    else Except.error PyError.indexError

/-- `retrieve(query, top_k)`: embed the query, search the FAISS index, and
format the hits.  When `self.index` is `None` (nothing loaded or added),
`self.index.search` raises `AttributeError`. -/
def retrieve (encode : PyDoc → Vec) (st : RAGState) (query : Str)
    (topK : Int) : Except PyError (List RetrievalResult) :=
  match st.index with
  | none => Except.error PyError.attributeError
  | some rows =>
    formatResults st.documents st.metadata
      (faissSearch rows (encode (PyDoc.str query)) topK)

/-! ## Build orchestration (`setup_rag`) -/

/-- The observable outcome of one `setup_rag()` run. -/
inductive SetupOutcome where
  | skippedNoPdfs : SetupOutcome
  | skippedCached : SetupOutcome
  | initFailed (e : PyError) : SetupOutcome
  | ran (st : RAGState) (err : Option PyError) : SetupOutcome
  deriving DecidableEq

/-- `setup_rag()`: no PDFs → skip; existing `faiss.index` without
`--reindex` → reuse the cached store; otherwise construct a `RAGManager`
(whose `__init__` *loads* any existing store) and run `index_directory`
over the current PDFs. -/
def setup_rag (encode : PyDoc → Vec) (fuel : Nat) (force : Bool)
    (pdfs : List (Str × Str)) (disk : Disk) : Option SetupOutcome :=
  if pdfs.isEmpty then some SetupOutcome.skippedNoPdfs
  else if disk.faissFile.isSome ∧ ¬force then some SetupOutcome.skippedCached
  else
    match ragManagerInit disk with
    | Except.error e => some (SetupOutcome.initFailed e)
    | Except.ok st =>
      (index_directory encode fuel st pdfs).map
        (fun r => SetupOutcome.ran r.1 r.2)

/-! ## Supporting lemmas: chunker loop behaviour -/

/-- The text `". bbbb"`: its only sentence terminator sits at the window
start. -/
def txtC9 : Str := ['.', ' ', 'b', 'b', 'b', 'b']

/-- The terminator-free text `"aaaa"`. -/
def txtC10 : Str := ['a', 'a', 'a', 'a']

lemma adjustEnd_txtC10 (s e : Int) : adjustEnd txtC10 s e = e := rfl

lemma chunkEnd_txtC10 (s : Int) : chunkEnd txtC10 2 s = s + 2 := by
  unfold chunkEnd
  split
  · exact adjustEnd_txtC10 s (s + 2)
  · rfl

/-- On `"aaaa"` with `chunk_size=2, overlap=3` the window start strictly
decreases forever, so the loop never exits, whatever the fuel. -/
lemma chunkTextLoop_txtC10 : ∀ (fuel : Nat) (start : Int) (acc : List Str),
    start < 4 → chunkTextLoop txtC10 2 3 fuel start acc = none := by
  intro fuel
  induction fuel with
  | zero => intro start acc _; rfl
  | succ n ih =>
    intro start acc h
    have e1 : chunkTextLoop txtC10 2 3 (n + 1) start acc =
        if start < (4 : Int) then
          chunkTextLoop txtC10 2 3 n (chunkEnd txtC10 2 start - 3)
            (acc ++ [pyStrip (pySlice txtC10 start (chunkEnd txtC10 2 start))])
        else some acc := rfl
    rw [e1, if_pos h, chunkEnd_txtC10]
    exact ih (start + 2 - 3) _ (by omega)

/-- On `". bbbb"` with `chunk_size=3, overlap=1` the cut moves back to the
terminator at position 0, so the window start stays `0` forever. -/
lemma chunkTextLoop_txtC9 : ∀ (fuel : Nat) (acc : List Str),
    chunkTextLoop txtC9 3 1 fuel 0 acc = none := by
  intro fuel
  induction fuel with
  | zero => intro acc; rfl
  | succ n ih =>
    intro acc
    have e1 : chunkTextLoop txtC9 3 1 (n + 1) 0 acc =
        chunkTextLoop txtC9 3 1 n 0 (acc ++ [['.']]) := rfl
    rw [e1]
    exact ih (acc ++ [['.']])

/-- C9: the claim says that for every text and every configuration with
`chunkSize > 0` and `0 ≤ overlap < chunkSize` the chunker terminates, its
window start making progress on every step.  The code violates this: on
the text `". bbbb"` with `chunk_size = 3`, `overlap = 1` (a configuration
inside the claimed-good range) the cut point is moved back to the sentence
terminator at the window start, the next start is `pos + 1 - overlap = 0`
again, and the loop runs forever — for every fuel bound the loop is still
running. -/
theorem c9_chunker_diverges_in_valid_config (fuel : Nat) :
    (0 : Int) < 3 ∧ (0 : Int) ≤ 1 ∧ (1 : Int) < 3 ∧
      chunk_text fuel txtC9 3 1 = none :=
  ⟨by norm_num, by norm_num, by norm_num, chunkTextLoop_txtC9 fuel []⟩

/-- C10: the claim says `overlap ≥ chunkSize` fails fast with a
`ConfigurationError` before any work begins.  The code has no such check
(it defines no `ConfigurationError` at all): on `"aaaa"` with
`chunk_size = 2`, `overlap = 3` it appends chunks and loops forever — for
every fuel bound the loop is still running, and no error is ever
raised. -/
theorem c10_no_overlap_guard_loops_forever (fuel : Nat) :
    (2 : Int) ≤ 3 ∧ chunk_text fuel txtC10 2 3 = none :=
  ⟨by norm_num, chunkTextLoop_txtC10 fuel 0 [] (by norm_num)⟩

/-! ## Supporting lemmas: persistence -/

lemma getStrs_map_str : ∀ ds : List Str, getStrs (ds.map PyDoc.str) = Except.ok ds := by
  intro ds
  induction ds with
  | nil => rfl
  | cons d rest ih => simp [getStrs, ih, Except.map]

lemma pySplitNewline_ne_nil : ∀ s : Str, pySplitNewline s ≠ [] := by
  intro s
  cases s with
  | nil => simp [pySplitNewline]
  | cons c rest =>
    simp only [pySplitNewline]
    cases pySplitNewline rest with
    | nil => simp
    | cons hd tl =>
      by_cases hc : c = '\n' <;> simp [hc]

lemma pySplitNewline_append_newline (d s : Str) (h : '\n' ∉ d) :
    pySplitNewline (d ++ '\n' :: s) = d :: pySplitNewline s := by
  induction d with
  | nil =>
    simp only [List.nil_append, pySplitNewline]
    cases h2 : pySplitNewline s with
    | nil => exact absurd h2 (pySplitNewline_ne_nil s)
    | cons hd tl => simp
  | cons c d ih =>
    rw [List.mem_cons, not_or] at h
    obtain ⟨h1, h2⟩ := h
    have e : pySplitNewline ((c :: d) ++ '\n' :: s) =
        match pySplitNewline (d ++ '\n' :: s) with
        | [] => [[]]
        | hd :: tl => if c = '\n' then [] :: hd :: tl else (c :: hd) :: tl := rfl
    rw [e, ih h2]
    show (if c = '\n' then [] :: d :: pySplitNewline s
      else (c :: d) :: pySplitNewline s) = (c :: d) :: pySplitNewline s
    rw [if_neg (fun hcn => h1 hcn.symm)]

lemma pySplitNewline_noNewline (d : Str) (h : '\n' ∉ d) :
    pySplitNewline d = [d] := by
  induction d with
  | nil => rfl
  | cons c d ih =>
    rw [List.mem_cons, not_or] at h
    obtain ⟨h1, h2⟩ := h
    have e : pySplitNewline (c :: d) =
        match pySplitNewline d with
        | [] => [[]]
        | hd :: tl => if c = '\n' then [] :: hd :: tl else (c :: hd) :: tl := rfl
    rw [e, ih h2]
    show (if c = '\n' then [] :: d :: ([] : List Str)
      else (c :: d) :: ([] : List Str)) = [c :: d]
    rw [if_neg (fun hcn => h1 hcn.symm)]

lemma pySplitNewline_joinNewline : ∀ ds : List Str, ds ≠ [] →
    (∀ d ∈ ds, '\n' ∉ d) → pySplitNewline (joinNewline ds) = ds := by
  intro ds
  induction ds with
  | nil => intro h _; exact absurd rfl h
  | cons d rest ih =>
    intro _ hnl
    cases rest with
    | nil => exact pySplitNewline_noNewline d (hnl d (by simp))
    | cons d2 rest2 =>
      have e : joinNewline (d :: d2 :: rest2) =
          d ++ '\n' :: joinNewline (d2 :: rest2) := rfl
      rw [e, pySplitNewline_append_newline _ _ (hnl d (by simp)),
        ih (by simp) (fun x hx => hnl x (List.mem_cons_of_mem _ hx))]

lemma retrieve_congr (encode : PyDoc → Vec) (s t : RAGState) (q : Str) (k : Int)
    (h1 : s.index = t.index) (h2 : s.documents = t.documents)
    (h3 : s.metadata = t.metadata) :
    retrieve encode s q k = retrieve encode t q k := by
  unfold retrieve
  rw [h1, h2, h3]

lemma chunkAll_length (fuel : Nat) (cs ov : Int) :
    ∀ (ts : List Str) (ls : List (List Str)),
    chunkAll fuel cs ov ts = some ls → ls.length = ts.length := by
  intro ts
  induction ts with
  | nil =>
    intro ls h
    simp only [chunkAll, Option.some_inj] at h
    subst h; rfl
  | cons t ts ih =>
    intro ls h
    simp only [chunkAll] at h
    cases h1 : chunk_text fuel t cs ov with
    | none => rw [h1] at h; simp at h
    | some c =>
      cases h2 : chunkAll fuel cs ov ts with
      | none => rw [h1, h2] at h; simp at h
      | some rest =>
        rw [h1, h2] at h
        simp only [Option.some_inj] at h
        subst h
        simp [ih rest h2]

lemma add_documents_shape (encode : PyDoc → Vec) (fuel : Nat) (cs ov : Int)
    (st : RAGState) (texts : List Str) (metadatas : List Metadata)
    (st1 : RAGState) (err : Option PyError)
    (h : add_documents encode fuel cs ov st texts metadatas = some (st1, err)) :
    ∃ chunkLists : List (List Str),
      chunkAll fuel cs ov texts = some chunkLists ∧
      chunkLists.length = texts.length ∧
      st1.index = some (st.index.getD [] ++ (chunkLists.map PyDoc.strList).map encode) ∧
      st1.documents = st.documents ++ chunkLists.map PyDoc.strList ∧
      st1.metadata = st.metadata ++ metadatas := by
  unfold add_documents at h
  cases hc : chunkAll fuel cs ov texts with
  | none => rw [hc] at h; simp at h
  | some cls =>
    rw [hc] at h
    simp only [Option.some_inj, Prod.mk.injEq] at h
    obtain ⟨h1, _⟩ := h
    subst h1
    exact ⟨cls, rfl, chunkAll_length fuel cs ov texts cls hc, rfl, rfl, rfl⟩

/-! ## Concrete instances used by witnesses and counterexamples -/

/-- A deterministic stub embedding capability (the Embedder is injected;
any function serves for concrete runs). -/
def encode0 : PyDoc → Vec := fun _ => [0]

/-- The fresh state of a `RAGManager` created over an empty store path. -/
def stEmpty : RAGState := ⟨none, [], [], ⟨none, none, none⟩⟩

/-- The state produced by `add_documents(["hi"], ["m"])` from `stEmpty`
(under `encode0`): in memory all three structures grew by one, but the
save raised `TypeError` after writing `faiss.index` and truncating
`documents.txt` to empty; `metadata.txt` was never created. -/
def stC1 : RAGState :=
  ⟨some [[0]], [PyDoc.strList [['h', 'i']]], [['m']],
    ⟨some [[0]], some [], none⟩⟩

/-! ## C1: alignment of the three parallel structures -/

/-- C1 (counterexample): the claim asserts the alignment invariant both in
memory and after a save/load cycle, for every sequence of `add_documents`
operations.  On the very first `add_documents` call from the empty state,
`_save_index` raises `TypeError` midway (`"\n".join` rejects the chunk
*lists* that `add_documents` stored in `self.documents`), `faiss.index`
is written and `documents.txt` is truncated to empty, and the save/load
cycle the claim quantifies over fails: `_load_index` then raises
`FileNotFoundError` for the missing `metadata.txt`.  So no save/load
cycle exists after which the three reloaded structures could be
aligned. -/
theorem c1_alignment_counterexample :
    add_documents encode0 5 500 50 stEmpty [['h', 'i']] [['m']] =
      some (stC1, some PyError.typeError) ∧
    loadIndex stC1 = Except.error PyError.fileNotFound := by decide

/-- C1 (amended): in memory the invariant does hold, in this form: if the
index rows are pointwise the embeddings of the `documents` entries and
`documents` and `metadata` have equal length, then any successful
`add_documents` call with equally many texts and metadatas preserves both
facts (each position `i` holds the chunk list of the `i`-th added text,
its embedding, and its metadata — one entry per input text, not per
chunk).  The invariant does not survive a save/load cycle, because the
save raises `TypeError` on such states (see the counterexample). -/
theorem c1_alignment_amended (encode : PyDoc → Vec) (fuel : Nat) (cs ov : Int)
    (st : RAGState) (texts : List Str) (metadatas : List Metadata)
    (st1 : RAGState) (err : Option PyError)
    (henc : st.index.getD [] = st.documents.map encode)
    (hlen : st.documents.length = st.metadata.length)
    (heq : texts.length = metadatas.length)
    (h : add_documents encode fuel cs ov st texts metadatas = some (st1, err)) :
    st1.index.getD [] = st1.documents.map encode ∧
    st1.documents.length = st1.metadata.length := by
  obtain ⟨cls, _, hlen2, hidx, hdocs, hmeta⟩ :=
    add_documents_shape encode fuel cs ov st texts metadatas st1 err h
  constructor
  · rw [hidx, hdocs]
    simp [List.map_append, henc]
  · rw [hdocs, hmeta]
    simp [hlen, hlen2, heq]

/-- C1 (witness): the amended invariant, instantiated on the concrete
`add_documents` run from the empty state. -/
theorem c1_alignment_witness :
    stC1.index.getD [] = stC1.documents.map encode0 ∧
    stC1.documents.length = stC1.metadata.length :=
  c1_alignment_amended encode0 5 500 50 stEmpty [['h', 'i']] [['m']] stC1
    (some PyError.typeError) rfl rfl rfl (by decide)

/-! ## C2: save/load round trip -/

/-- A state holding one chunk with an embedded newline (as a plain string,
the layout `_load_index` itself produces). -/
def stNl : RAGState :=
  ⟨some [[1]], [PyDoc.str ['a', '\n', 'b']], [['m']], ⟨none, none, none⟩⟩

/-- The store `_save_index` writes for `stNl`. -/
def diskNl : Disk := ⟨some [[1]], some ['a', '\n', 'b'], some [['m']]⟩

/-- `stNl` with its store written. -/
def stNlSaved : RAGState :=
  ⟨some [[1]], [PyDoc.str ['a', '\n', 'b']], [['m']], diskNl⟩

/-- What `_load_index` reconstructs from `diskNl`: the single chunk
`"a\nb"` comes back as the two chunks `"a"`, `"b"`. -/
def stNl2 : RAGState :=
  ⟨some [[1]], [PyDoc.str ['a'], PyDoc.str ['b']], [['m']], diskNl⟩

/-- C2 (counterexample): the claim asserts chunk texts with embedded
newlines survive the one-chunk-per-line format because newlines are
escaped/removed per chunk before joining.  No such escaping exists: for
the stored chunk `"a\nb"` the save succeeds verbatim and the reload
splits it into two chunks, so the reloaded chunk-text array differs from
the pre-save one (length 2 instead of 1), breaking the claimed bit-for-bit
round trip. -/
theorem c2_roundtrip_counterexample :
    saveIndex stNl = (diskNl, none) ∧
    loadIndex stNlSaved = Except.ok stNl2 ∧
    stNl2.documents ≠ stNl.documents ∧
    stNl.documents.length = 1 ∧ stNl2.documents.length = 2 := by decide

/-- C2 (amended): the round trip restores the index, chunk texts, and
metadata exactly — hence every query returns identical results against
the reloaded state — only for states whose `documents` are plain strings,
none containing an embedded newline, and at least one present.  (States
built by `add_documents` hold chunk lists instead and cannot complete a
save at all; a chunk with an embedded newline reloads split, as the
counterexample shows.) -/
theorem c2_roundtrip_amended (st : RAGState) (rows : List Vec) (docs : List Str)
    (hidx : st.index = some rows)
    (hdocs : st.documents = docs.map PyDoc.str)
    (hne : docs ≠ [])
    (hnl : ∀ d ∈ docs, '\n' ∉ d) :
    ∃ disk1 st2,
      saveIndex st = (disk1, none) ∧
      loadIndex { st with disk := disk1 } = Except.ok st2 ∧
      st2.index = st.index ∧ st2.documents = st.documents ∧
      st2.metadata = st.metadata ∧
      ∀ encode q k, retrieve encode st2 q k = retrieve encode st q k := by
  obtain ⟨idx, documents, metadata, disk⟩ := st
  simp only at hidx hdocs
  subst hidx hdocs
  refine ⟨⟨some rows, some (joinNewline docs), some metadata⟩,
    ⟨some rows, docs.map PyDoc.str, metadata,
      ⟨some rows, some (joinNewline docs), some metadata⟩⟩, ?_, ?_, rfl, rfl, rfl, ?_⟩
  · unfold saveIndex
    simp [getStrs_map_str]
  · unfold loadIndex
    simp [pySplitNewline_joinNewline docs hne hnl]
  · intro encode q k
    exact retrieve_congr encode _ _ q k rfl rfl rfl

/-- C2 (witness): the amended round trip, instantiated on a concrete
newline-free single-chunk state. -/
theorem c2_roundtrip_witness :
    ∃ disk1 st2,
      saveIndex ⟨some [[1]], [PyDoc.str ['a']], [['m']], ⟨none, none, none⟩⟩ =
        (disk1, none) ∧
      loadIndex { (⟨some [[1]], [PyDoc.str ['a']], [['m']],
          ⟨none, none, none⟩⟩ : RAGState) with disk := disk1 } = Except.ok st2 ∧
      st2.index = some [[1]] ∧ st2.documents = [PyDoc.str ['a']] ∧
      st2.metadata = [['m']] ∧
      ∀ encode q k, retrieve encode st2 q k =
        retrieve encode ⟨some [[1]], [PyDoc.str ['a']], [['m']],
          ⟨none, none, none⟩⟩ q k :=
  c2_roundtrip_amended _ [[1]] [['a']] rfl rfl (by decide) (by decide)

/-! ## C5: atomicity of the artifact set -/

/-- A state whose previous build is fully persisted (a one-entry store). -/
def stOld5 : RAGState :=
  ⟨some [[9]], [PyDoc.str ['o']], [['m']], ⟨some [[9]], some ['o'], some [['m']]⟩⟩

/-- The state after `add_documents(["x"], ["p"])` on `stOld5` under
`encode0`: the save raised midway, leaving a mixed artifact set — a new
`faiss.index`, a `documents.txt` truncated to empty by `open(..., "w")`
before the join raised, and the old `metadata.txt`. -/
def stAfter5 : RAGState :=
  ⟨some [[9], [0]], [PyDoc.str ['o'], PyDoc.strList [['x']]], [['m'], ['p']],
    ⟨some [[9], [0]], some [], some [['m']]⟩⟩

/-- C5 (counterexample): the claim says a failed build commits nothing —
the previously persisted artifact set stays intact and a new set becomes
visible only once fully written.  `_save_index` writes the three files
sequentially in place: on this concrete failing build, `faiss.index` is
replaced by the new vectors, `documents.txt` is truncated to empty (the
`open(..., "w")` truncates before the failing join is evaluated), and
only `metadata.txt` keeps its old content — the old artifact set is
destroyed, and a partially new one is visible. -/
theorem c5_atomicity_counterexample :
    add_documents encode0 5 500 50 stOld5 [['x']] [['p']] =
      some (stAfter5, some PyError.typeError) ∧
    stAfter5.disk.faissFile ≠ stOld5.disk.faissFile ∧
    stAfter5.disk.docsFile = some [] ∧
    stAfter5.disk.docsFile ≠ stOld5.disk.docsFile ∧
    stAfter5.disk.metaFile = stOld5.disk.metaFile := by decide

/-- C5 (amended): `_save_index` is not atomic: whenever the index object
exists but the join over `documents` raises, the store is left with the
new vector file written in place, `documents.txt` truncated to empty
(the write-mode open precedes the failing join), and `metadata.txt`
untouched from the previous artifact set — the previous set is not
intact and no complete new set exists. -/
theorem c5_save_partial_write (st : RAGState) (rows : List Vec) (e : PyError)
    (hidx : st.index = some rows)
    (hjoin : getStrs st.documents = Except.error e) :
    saveIndex st =
      ({ st.disk with faissFile := some rows, docsFile := some [] },
        some e) := by
  unfold saveIndex
  rw [hidx, hjoin]

/-- C5 (witness): the partial-write shape on a concrete state whose
documents hold a chunk list. -/
theorem c5_save_partial_write_witness :
    saveIndex ⟨some [[2]], [PyDoc.strList [['x']]], [['q']],
        ⟨some [[8]], some ['z'], some [['w']]⟩⟩ =
      (⟨some [[2]], some [], some [['w']]⟩, some PyError.typeError) :=
  c5_save_partial_write _ [[2]] PyError.typeError rfl rfl

/-! ## C6: corruption check on load -/

/-- A freshly constructed manager over a store whose three artifacts
disagree: 3 vectors, 1 chunk line, 0 metadata entries. -/
def stBad6 : RAGState :=
  ⟨none, [], [], ⟨some [[1], [2], [3]], some ['a'], some []⟩⟩

/-- What `_load_index` produces from that store. -/
def stBad6Loaded : RAGState :=
  ⟨some [[1], [2], [3]], [PyDoc.str ['a']], [],
    ⟨some [[1], [2], [3]], some ['a'], some []⟩⟩

/-- C6 (counterexample): the claim says load fails with a hard
`CorruptIndexError` when the reloaded vector, text-line, and metadata
counts disagree.  The code performs no such check (and defines no
`CorruptIndexError`): this store with counts 3 / 1 / 0 loads without any
error into a misaligned state. -/
theorem c6_corruption_check_counterexample :
    loadIndex stBad6 = Except.ok stBad6Loaded ∧
    (stBad6Loaded.index.getD []).length = 3 ∧
    stBad6Loaded.documents.length = 1 ∧
    stBad6Loaded.metadata.length = 0 := by decide

/-- C6 (amended): `_load_index` performs no consistency check between the
three artifacts: whenever all three files exist it succeeds — whatever
their counts — installing the vectors, the newline-split text lines, and
the metadata list as read.  (The second half of the claim is true
trivially: agreeing counts also load without error.) -/
theorem c6_load_no_corruption_check (st : RAGState) (rows : List Vec)
    (content : Str) (metas : List Metadata)
    (h1 : st.disk.faissFile = some rows)
    (h2 : st.disk.docsFile = some content)
    (h3 : st.disk.metaFile = some metas) :
    loadIndex st =
      Except.ok
        { st with
          index := some rows
          documents := (pySplitNewline content).map PyDoc.str
          metadata := metas } := by
  unfold loadIndex
  rw [h1, h2, h3]

/-- C6 (witness): the unchecked load on a concrete store with agreeing
counts (1 / 1 / 1). -/
theorem c6_load_no_corruption_check_witness :
    loadIndex ⟨none, [], [], ⟨some [[4]], some ['c'], some [['s']]⟩⟩ =
      Except.ok ⟨some [[4]], [PyDoc.str ['c']], [['s']],
        ⟨some [[4]], some ['c'], some [['s']]⟩⟩ := by
  have h := c6_load_no_corruption_check
    ⟨none, [], [], ⟨some [[4]], some ['c'], some [['s']]⟩⟩
    [[4]] ['c'] [['s']] rfl rfl rfl
  simpa using h

/-! ## C4: cold start and empty-index retrieval -/

/-- C4 (counterexample): the claim says that after a cold start every
`retrieve` returns `[]` without raising.  Construction over an empty
store path does succeed (the load returns early), but it leaves
`self.index = None`, and `retrieve` then evaluates `self.index.search`,
raising `AttributeError` instead of returning `[]`. -/
theorem c4_cold_retrieve_counterexample :
    ragManagerInit ⟨none, none, none⟩ =
      Except.ok ⟨none, [], [], ⟨none, none, none⟩⟩ ∧
    retrieve encode0 ⟨none, [], [], ⟨none, none, none⟩⟩ ['q'] 3 =
      Except.error PyError.attributeError := by decide

/-- C4 (amended): construction over a store path with no persisted
artifact succeeds and leaves the index `None`; every `retrieve` against
that state raises `AttributeError` rather than returning `[]`.  `retrieve`
returns `[]` (with no error) only when an index object exists and either
`topK ≤ 0` or the index holds no vectors. -/
theorem c4_cold_start_amended (disk : Disk) (h : disk.faissFile = none) :
    ragManagerInit disk = Except.ok ⟨none, [], [], disk⟩ ∧
    (∀ encode q k, retrieve encode ⟨none, [], [], disk⟩ q k =
      Except.error PyError.attributeError) ∧
    (∀ encode (st : RAGState) (rows : List Vec) q k,
      st.index = some rows → k ≤ 0 → retrieve encode st q k = Except.ok []) ∧
    (∀ encode (st : RAGState) q k, st.index = some [] →
      retrieve encode st q k = Except.ok []) := by
  refine ⟨?_, ?_, ?_, ?_⟩
  · unfold ragManagerInit loadIndex
    rw [show (⟨none, [], [], disk⟩ : RAGState).disk.faissFile = disk.faissFile
      from rfl, h]
  · intro encode q k; rfl
  · intro encode st rows q k hidx hk
    obtain ⟨idx, docs, metas, disk2⟩ := st
    simp only at hidx
    subst hidx
    unfold retrieve faissSearch
    rw [Int.toNat_of_nonpos hk]
    simp [formatResults]
  · intro encode st q k hidx
    obtain ⟨idx, docs, metas, disk2⟩ := st
    simp only at hidx
    subst hidx
    unfold retrieve faissSearch scoredOf
    simp [formatResults]

/-- C4 (witness): the amended cold-start behaviour on a concrete empty
store path. -/
theorem c4_cold_start_witness :
    ragManagerInit ⟨none, none, none⟩ =
      Except.ok ⟨none, [], [], ⟨none, none, none⟩⟩ ∧
    (∀ encode q k, retrieve encode ⟨none, [], [], ⟨none, none, none⟩⟩ q k =
      Except.error PyError.attributeError) ∧
    (∀ encode (st : RAGState) (rows : List Vec) q k,
      st.index = some rows → k ≤ 0 → retrieve encode st q k = Except.ok []) ∧
    (∀ encode (st : RAGState) q k, st.index = some [] →
      retrieve encode st q k = Except.ok []) :=
  c4_cold_start_amended ⟨none, none, none⟩ rfl

/-! ## C3: force rebuild -/

lemma index_directory_appends (encode : PyDoc → Vec) (fuel : Nat) :
    ∀ (pdfs : List (Str × Str)) (st st1 : RAGState) (err : Option PyError),
    index_directory encode fuel st pdfs = some (st1, err) →
    ∃ newRows newDocs newMetas,
      st1.index.getD [] = st.index.getD [] ++ newRows ∧
      st1.documents = st.documents ++ newDocs ∧
      st1.metadata = st.metadata ++ newMetas := by
  intro pdfs
  induction pdfs with
  | nil =>
    intro st st1 err h
    simp only [index_directory, Option.some_inj, Prod.mk.injEq] at h
    obtain ⟨h1, _⟩ := h
    subst h1
    exact ⟨[], [], [], by simp, by simp, by simp⟩
  | cons p rest ih =>
    intro st st1 err h
    obtain ⟨name, text⟩ := p
    simp only [index_directory] at h
    cases ha : add_documents encode fuel 500 50 st [text] [name] with
    | none => rw [ha] at h; simp at h
    | some r =>
      obtain ⟨stm, errm⟩ := r
      rw [ha] at h
      obtain ⟨cls, _, _, hidx, hdocs, hmeta⟩ :=
        add_documents_shape encode fuel 500 50 st [text] [name] stm errm ha
      have hidx2 : stm.index.getD [] =
          st.index.getD [] ++ (cls.map PyDoc.strList).map encode := by
        rw [hidx]; rfl
      cases errm with
      | some e =>
        simp only [Option.some_inj, Prod.mk.injEq] at h
        obtain ⟨h1, _⟩ := h
        subst h1
        exact ⟨_, _, _, hidx2, hdocs, hmeta⟩
      | none =>
        obtain ⟨r2, d2, m2, g1, g2, g3⟩ := ih stm st1 err h
        refine ⟨(cls.map PyDoc.strList).map encode ++ r2,
          cls.map PyDoc.strList ++ d2, [name] ++ m2, ?_, ?_, ?_⟩
        · rw [g1, hidx2, List.append_assoc]
        · rw [g2, hdocs, List.append_assoc]
        · rw [g3, hmeta, List.append_assoc]

/-- C3 (amended): with `force = true` over an existing persisted store,
`setup_rag` does not discard the prior structure: `RAGManager.__init__`
*loads* the persisted index and `index_directory` then appends the current
corpus to it.  Whenever the run reaches a manager state, the prior
persisted entries — vectors, text lines, and metadata — remain as a
prefix of the resulting structures. -/
theorem c3_force_rebuild_appends (encode : PyDoc → Vec) (fuel : Nat)
    (pdfs : List (Str × Str)) (disk : Disk)
    (rows0 : List Vec) (content : Str) (metas0 : List Metadata)
    (st1 : RAGState) (err : Option PyError)
    (hf : disk.faissFile = some rows0)
    (hd : disk.docsFile = some content)
    (hm : disk.metaFile = some metas0)
    (hrun : setup_rag encode fuel true pdfs disk =
      some (SetupOutcome.ran st1 err)) :
    ∃ newRows newDocs newMetas,
      st1.index.getD [] = rows0 ++ newRows ∧
      st1.documents = (pySplitNewline content).map PyDoc.str ++ newDocs ∧
      st1.metadata = metas0 ++ newMetas := by
  unfold setup_rag at hrun
  by_cases hp : pdfs.isEmpty
  · rw [if_pos hp] at hrun
    simp at hrun
  · rw [if_neg hp, if_neg (by simp)] at hrun
    have hinit : ragManagerInit disk =
        Except.ok ⟨some rows0, (pySplitNewline content).map PyDoc.str,
          metas0, disk⟩ := by
      unfold ragManagerInit loadIndex
      rw [show (⟨none, [], [], disk⟩ : RAGState).disk.faissFile =
        disk.faissFile from rfl, hf]
      rw [show (⟨none, [], [], disk⟩ : RAGState).disk.docsFile =
        disk.docsFile from rfl, hd]
      rw [show (⟨none, [], [], disk⟩ : RAGState).disk.metaFile =
        disk.metaFile from rfl, hm]
    rw [hinit] at hrun
    have hrun2 : Option.map (fun r => SetupOutcome.ran r.1 r.2)
        (index_directory encode fuel
          ⟨some rows0, (pySplitNewline content).map PyDoc.str, metas0, disk⟩
          pdfs) = some (SetupOutcome.ran st1 err) := hrun
    cases hdir : index_directory encode fuel
        ⟨some rows0, (pySplitNewline content).map PyDoc.str, metas0, disk⟩
        pdfs with
    | none => rw [hdir] at hrun2; exact Option.noConfusion hrun2
    | some r =>
      obtain ⟨stm, errm⟩ := r
      rw [hdir] at hrun2
      rw [show Option.map (fun r => SetupOutcome.ran r.1 r.2)
          (some (stm, errm)) = some (SetupOutcome.ran stm errm) from rfl]
        at hrun2
      rw [Option.some_inj, SetupOutcome.ran.injEq] at hrun2
      obtain ⟨h1, _⟩ := hrun2
      subst h1
      obtain ⟨r2, d2, m2, g1, g2, g3⟩ :=
        index_directory_appends encode fuel pdfs _ _ _ hdir
      exact ⟨r2, d2, m2, by simpa using g1, by simpa using g2,
        by simpa using g3⟩

/-- The persisted store of a previous corpus whose source file no longer
exists: one stale vector `[7]`, one stale chunk line `"s"`, one stale
metadata entry `"t"`. -/
def diskOld3 : Disk := ⟨some [[7]], some ['s'], some [['t']]⟩

/-- C3 (counterexample): the claim says `build(force=true)` produces an
index containing only chunks from the currently present sources, no entry
of the prior persisted index remaining.  On this concrete run the stale
vector `[7]` is still entry 0 of the resulting index and the stale chunk
`"s"` is still entry 0 of the documents — the rebuild appended instead of
replacing. -/
theorem c3_force_rebuild_counterexample :
    setup_rag encode0 5 true [(['n'], ['h', 'i'])] diskOld3 =
      some (SetupOutcome.ran
        ⟨some [[7], [0]], [PyDoc.str ['s'], PyDoc.strList [['h', 'i']]],
          [['t'], ['n']], ⟨some [[7], [0]], some [], some [['t']]⟩⟩
        (some PyError.typeError)) := by decide

/-- C3 (witness): the prior persisted entries remain as a prefix on the
concrete `--reindex` run over `diskOld3`. -/
theorem c3_force_rebuild_witness :
    ∃ newRows newDocs newMetas,
      ((⟨some [[7], [0]], [PyDoc.str ['s'], PyDoc.strList [['h', 'i']]],
        [['t'], ['n']], ⟨some [[7], [0]], some [], some [['t']]⟩⟩ :
          RAGState)).index.getD [] = [[7]] ++ newRows ∧
      ((⟨some [[7], [0]], [PyDoc.str ['s'], PyDoc.strList [['h', 'i']]],
        [['t'], ['n']], ⟨some [[7], [0]], some [], some [['t']]⟩⟩ :
          RAGState)).documents =
        (pySplitNewline ['s']).map PyDoc.str ++ newDocs ∧
      ((⟨some [[7], [0]], [PyDoc.str ['s'], PyDoc.strList [['h', 'i']]],
        [['t'], ['n']], ⟨some [[7], [0]], some [], some [['t']]⟩⟩ :
          RAGState)).metadata = [['t']] ++ newMetas :=
  c3_force_rebuild_appends encode0 5 [(['n'], ['h', 'i'])] diskOld3
    [[7]] ['s'] [['t']] _ (some PyError.typeError) rfl rfl rfl (by decide)

/-! ## Supporting lemmas: distances, scores, and search -/

lemma sqDist_nonneg (q v : Vec) : 0 ≤ sqDist q v := by
  unfold sqDist
  apply List.sum_nonneg
  intro x hx
  obtain ⟨p, _, rfl⟩ := List.mem_map.mp hx
  positivity

lemma sqDist_eq_zero_iff : ∀ (q v : Vec), q.length = v.length →
    (sqDist q v = 0 ↔ q = v) := by
  intro q
  induction q with
  | nil =>
    intro v h
    cases v with
    | nil => simp [sqDist]
    | cons b bs => simp at h
  | cons a as ih =>
    intro v h
    cases v with
    | nil => simp at h
    | cons b bs =>
      simp only [List.length_cons, Nat.succ_inj] at h
      have e : sqDist (a :: as) (b :: bs) = (a - b) ^ 2 + sqDist as bs := by
        simp [sqDist, List.zip_cons_cons]
      rw [e]
      constructor
      · intro h0
        have h1 : (0 : ℚ) ≤ (a - b) ^ 2 := sq_nonneg _
        have h2 : 0 ≤ sqDist as bs := sqDist_nonneg as bs
        have hA : (a - b) ^ 2 = 0 := by linarith
        have hB : sqDist as bs = 0 := by linarith
        have ha : a = b := sub_eq_zero.mp (sq_eq_zero_iff.mp hA)
        have hb : as = bs := (ih bs h).mp hB
        rw [ha, hb]
      · intro he
        rw [List.cons.injEq] at he
        obtain ⟨ha, hb⟩ := he
        have hB : sqDist as bs = 0 := (ih bs h).mpr hb
        rw [ha, hB]
        ring

lemma sqDist_self (v : Vec) : sqDist v v = 0 :=
  (sqDist_eq_zero_iff v v rfl).mpr rfl

lemma distScore_pos (d : ℚ) (h : 0 ≤ d) : 0 < distScore d := by
  unfold distScore
  positivity

lemma distScore_le_one (d : ℚ) (h : 0 ≤ d) : distScore d ≤ 1 := by
  unfold distScore
  rw [div_le_one (by linarith)]
  linarith

lemma distScore_eq_one_iff (d : ℚ) (h : 0 ≤ d) : distScore d = 1 ↔ d = 0 := by
  unfold distScore
  rw [div_eq_one_iff_eq (by linarith : (1 : ℚ) + d ≠ 0)]
  constructor
  · intro h1; linarith
  · intro h1; rw [h1]; ring

lemma distScore_strict_anti (d e : ℚ) (h : 0 ≤ d) (hde : d < e) :
    distScore e < distScore d := by
  unfold distScore
  exact one_div_lt_one_div_of_lt (by linarith) (by linarith)

lemma mem_scoredOf (q : Vec) (rows : List Vec) (p : ℚ × Nat)
    (hp : p ∈ scoredOf q rows) :
    p.2 < rows.length ∧ ∃ v, rows.get? p.2 = some v ∧ p.1 = sqDist q v := by
  unfold scoredOf at hp
  obtain ⟨i, hi, rfl⟩ := List.mem_map.mp hp
  rw [List.mem_range] at hi
  have h1 : rows.get? i = some (rows.get ⟨i, hi⟩) := List.get?_eq_get hi
  have h2 : rows.getD i [] = rows.get ⟨i, hi⟩ := by
    rw [List.getD_eq_get?, h1]; rfl
  exact ⟨hi, rows.getD i [], by rw [h1, h2], rfl⟩

lemma scoredOf_mem (q : Vec) (rows : List Vec) (j : Nat) (vj : Vec)
    (hj : rows.get? j = some vj) : (sqDist q vj, j) ∈ scoredOf q rows := by
  obtain ⟨hlt, hv⟩ := List.get?_eq_some.mp hj
  unfold scoredOf
  apply List.mem_map.mpr
  refine ⟨j, List.mem_range.mpr hlt, ?_⟩
  have h2 : rows.getD j [] = vj := by
    rw [List.getD_eq_get?, hj]; rfl
  rw [h2]

lemma faissSearch_subset (rows : List Vec) (q : Vec) (k : Int)
    (p : ℚ × Nat) (hp : p ∈ faissSearch rows q k) : p ∈ scoredOf q rows := by
  unfold faissSearch at hp
  exact (List.mem_insertionSort hitLe).mp (List.take_subset _ _ hp)

lemma formatResults_ok (docs : List PyDoc) (metas : List Metadata) :
    ∀ hits : List (ℚ × Nat),
    (∀ p ∈ hits, (docs.get? p.2).isSome ∧ (metas.get? p.2).isSome) →
    formatResults docs metas hits =
      Except.ok (hits.map (mkResult docs metas)) := by
  intro hits
  induction hits with
  | nil => intro _; rfl
  | cons p rest ih =>
    intro h
    have hp := h p (by simp)
    simp only [formatResults]
    rw [if_pos hp, ih (fun x hx => h x (List.mem_cons_of_mem _ hx))]
    rfl

lemma scoredOf_map_snd (q : Vec) (rows : List Vec) :
    (scoredOf q rows).map Prod.snd = List.range rows.length := by
  unfold scoredOf
  rw [List.map_map]
  have h : (Prod.snd ∘ fun i => ((sqDist q (rows.getD i []), i) : ℚ × Nat)) =
      id := rfl
  rw [h, List.map_id]

/-! ## C8: search ordering and tie-breaking -/

/-- C8: search returns at most `k` results, in strictly increasing
lexicographic `(distance, ordinal)` order: distances are ascending, and
entries at equal distance appear in ascending-ordinal order
(first-inserted wins), making the ranking deterministic.  (The search is
the spec-modelled FAISS `IndexFlatL2` exact search — FAISS is an external
library, not code of this repository.) -/
theorem c8_search_order_deterministic (rows : List Vec) (q : Vec) (k : Int) :
    (faissSearch rows q k).length ≤ k.toNat ∧
    List.Pairwise (fun a b : ℚ × Nat =>
      a.1 < b.1 ∨ (a.1 = b.1 ∧ a.2 < b.2)) (faissSearch rows q k) := by
  constructor
  · exact List.length_take_le _ _
  · have hsorted : List.Pairwise hitLe
        (List.insertionSort hitLe (scoredOf q rows)) :=
      List.sorted_insertionSort hitLe (scoredOf q rows)
    have hnodup : ((List.insertionSort hitLe (scoredOf q rows)).map
        Prod.snd).Nodup := by
      rw [(List.perm_insertionSort hitLe (scoredOf q rows)).map
        Prod.snd |>.nodup_iff]
      rw [scoredOf_map_snd]
      exact List.nodup_range _
    have hne : List.Pairwise (fun a b : ℚ × Nat => a.2 ≠ b.2)
        (List.insertionSort hitLe (scoredOf q rows)) :=
      (List.pairwise_map.mp hnodup)
    have hcomb := hsorted.and hne
    have hlt : List.Pairwise (fun a b : ℚ × Nat =>
        a.1 < b.1 ∨ (a.1 = b.1 ∧ a.2 < b.2))
        (List.insertionSort hitLe (scoredOf q rows)) := by
      apply hcomb.imp
      intro a b hab
      obtain ⟨hle, hne2⟩ := hab
      rcases hle with h1 | ⟨h1, h2⟩
      · exact Or.inl h1
      · exact Or.inr ⟨h1, Nat.lt_of_le_of_ne h2 hne2⟩
    exact hlt.sublist (List.take_sublist _ _)

/-! ## C7: the distance-to-score conversion -/

/-- C7: on a non-empty aligned index, `retrieve` succeeds and every
returned result carries `score = 1/(1+d)` where `d` is the squared
Euclidean distance to the query vector of the vector stored at the very
ordinal whose text and metadata the result carries; the score
lies in `(0,1]` and equals exactly `1` precisely when the vectors are
identical; the conversion is strictly decreasing in distance; and when
the query embedding equals a stored vector (and at least one result is
requested) the first result is a distance-`0` entry with score exactly
`1`, carrying that entry's text and metadata.  (Distances come from the
spec-modelled FAISS search; scores are computed by the repository's
`retrieve`.) -/
theorem c7_score_formula (encode : PyDoc → Vec) (st : RAGState)
    (rows : List Vec) (query : Str) (topK : Int)
    (hidx : st.index = some rows)
    (hd : st.documents.length = rows.length)
    (hm : st.metadata.length = rows.length)
    (hdim : ∀ v ∈ rows, v.length = (encode (PyDoc.str query)).length) :
    ∃ res : List RetrievalResult,
      retrieve encode st query topK = Except.ok res ∧
      (∀ r ∈ res, ∃ i v, rows.get? i = some v ∧
        st.documents.get? i = some r.text ∧
        st.metadata.get? i = some r.metadata ∧
        r.score = distScore (sqDist (encode (PyDoc.str query)) v) ∧
        0 < r.score ∧ r.score ≤ 1 ∧
        (r.score = 1 ↔ v = encode (PyDoc.str query))) ∧
      (∀ d e : ℚ, 0 ≤ d → d < e → distScore e < distScore d) ∧
      (∀ j vj, rows.get? j = some vj → vj = encode (PyDoc.str query) →
        1 ≤ topK →
        ∃ r rest, res = r :: rest ∧ r.score = 1 ∧
          ∃ i w, rows.get? i = some w ∧ w = encode (PyDoc.str query) ∧
            st.documents.get? i = some r.text ∧
            st.metadata.get? i = some r.metadata) := by
  obtain ⟨idx, docs, metas, disk⟩ := st
  simp only at hidx hd hm
  subst hidx
  set qv := encode (PyDoc.str query) with hqv
  set hits := faissSearch rows qv topK with hhits
  have hbound : ∀ p ∈ hits,
      (docs.get? p.2).isSome ∧ (metas.get? p.2).isSome := by
    intro p hp
    obtain ⟨hlt, -⟩ :=
      mem_scoredOf qv rows p (faissSearch_subset rows qv topK p hp)
    have h1 : p.2 < docs.length := by rw [hd]; exact hlt
    have h2 : p.2 < metas.length := by rw [hm]; exact hlt
    constructor
    · rw [List.get?_eq_get h1]; rfl
    · rw [List.get?_eq_get h2]; rfl
  have hfmt := formatResults_ok docs metas hits hbound
  refine ⟨hits.map (mkResult docs metas), hfmt, ?_, ?_, ?_⟩
  · intro r hr
    obtain ⟨p, hp, rfl⟩ := List.mem_map.mp hr
    obtain ⟨hlt, v, hv, hd1⟩ :=
      mem_scoredOf qv rows p (faissSearch_subset rows qv topK p hp)
    have hnn : 0 ≤ sqDist qv v := sqDist_nonneg qv v
    have hvlen : v.length = qv.length := hdim v (List.get?_mem hv)
    refine ⟨p.2, v, hv, ?_, ?_, ?_, ?_, ?_, ?_⟩
    · have h1 : p.2 < docs.length := by rw [hd]; exact hlt
      show docs.get? p.2 = some ((docs.get? p.2).getD (PyDoc.str []))
      rw [List.get?_eq_get h1]
      rfl
    · have h2 : p.2 < metas.length := by rw [hm]; exact hlt
      show metas.get? p.2 = some ((metas.get? p.2).getD [])
      rw [List.get?_eq_get h2]
      rfl
    · show distScore p.1 = distScore (sqDist qv v)
      rw [hd1]
    · show 0 < distScore p.1
      rw [hd1]; exact distScore_pos _ hnn
    · show distScore p.1 ≤ 1
      rw [hd1]; exact distScore_le_one _ hnn
    · show distScore p.1 = 1 ↔ v = qv
      rw [hd1, distScore_eq_one_iff _ hnn,
        sqDist_eq_zero_iff qv v hvlen.symm]
      exact eq_comm
  · intro d e hd0 hde
    exact distScore_strict_anti d e hd0 hde
  · intro j vj hj hvq hk
    have hmem0 : ((0 : ℚ), j) ∈ scoredOf qv rows := by
      have h := scoredOf_mem qv rows j vj hj
      rw [hvq, sqDist_self] at h
      exact h
    have hmemS : ((0 : ℚ), j) ∈ List.insertionSort hitLe (scoredOf qv rows) :=
      (List.mem_insertionSort hitLe).mpr hmem0
    cases hs : List.insertionSort hitLe (scoredOf qv rows) with
    | nil => rw [hs] at hmemS; simp at hmemS
    | cons h0 tl =>
      have hsorted := List.sorted_insertionSort hitLe (scoredOf qv rows)
      rw [hs] at hsorted hmemS
      have hle0 : h0.1 ≤ 0 := by
        rcases List.mem_cons.mp hmemS with he | ht
        · rw [← he]
        · rcases List.rel_of_sorted_cons hsorted _ ht with h1 | ⟨h1, _⟩
          · exact le_of_lt h1
          · exact le_of_eq h1
      have hh0mem : h0 ∈ scoredOf qv rows := by
        apply (List.mem_insertionSort hitLe).mp
        rw [hs]
        exact List.mem_cons_self _ _
      obtain ⟨hlt0, w, hw, hd0⟩ := mem_scoredOf qv rows h0 hh0mem
      have hge0 : 0 ≤ h0.1 := hd0 ▸ sqDist_nonneg qv w
      have h0dist : h0.1 = 0 := le_antisymm hle0 hge0
      have hwq : w = qv := by
        have hwlen : w.length = qv.length := hdim w (List.get?_mem hw)
        have hz : sqDist qv w = 0 := by rw [← hd0, h0dist]
        exact ((sqDist_eq_zero_iff qv w hwlen.symm).mp hz).symm
      obtain ⟨m, hmk⟩ : ∃ m, topK.toNat = m + 1 := by
        have hne : topK.toNat ≠ 0 := by
          rw [Ne, Int.toNat_eq_zero]
          omega
        exact Nat.exists_eq_succ_of_ne_zero hne
      have hhitseq : hits = h0 :: tl.take m := by
        rw [hhits]
        unfold faissSearch
        rw [hs, hmk]
        rfl
      refine ⟨mkResult docs metas h0,
        (tl.take m).map (mkResult docs metas), ?_, ?_, ?_⟩
      · rw [hhitseq]
        rfl
      · show distScore h0.1 = 1
        rw [h0dist]
        norm_num [distScore]
      · refine ⟨h0.2, w, hw, hwq, ?_, ?_⟩
        · have h1 : h0.2 < docs.length := by rw [hd]; exact hlt0
          show docs.get? h0.2 = some ((docs.get? h0.2).getD (PyDoc.str []))
          rw [List.get?_eq_get h1]
          rfl
        · have h2 : h0.2 < metas.length := by rw [hm]; exact hlt0
          show metas.get? h0.2 = some ((metas.get? h0.2).getD [])
          rw [List.get?_eq_get h2]
          rfl

/-- C7 (witness): the score characterization instantiated on a concrete
one-entry index whose stored vector equals the query embedding. -/
theorem c7_score_formula_witness :
    ∃ res : List RetrievalResult,
      retrieve encode0 ⟨some [[0]], [PyDoc.str ['a']], [['m']],
        ⟨none, none, none⟩⟩ ['q'] 3 = Except.ok res ∧
      (∀ r ∈ res, ∃ i v, ([[0]] : List Vec).get? i = some v ∧
        (⟨some [[0]], [PyDoc.str ['a']], [['m']],
          ⟨none, none, none⟩⟩ : RAGState).documents.get? i = some r.text ∧
        (⟨some [[0]], [PyDoc.str ['a']], [['m']],
          ⟨none, none, none⟩⟩ : RAGState).metadata.get? i =
            some r.metadata ∧
        r.score = distScore (sqDist (encode0 (PyDoc.str ['q'])) v) ∧
        0 < r.score ∧ r.score ≤ 1 ∧
        (r.score = 1 ↔ v = encode0 (PyDoc.str ['q']))) ∧
      (∀ d e : ℚ, 0 ≤ d → d < e → distScore e < distScore d) ∧
      (∀ j vj, ([[0]] : List Vec).get? j = some vj →
        vj = encode0 (PyDoc.str ['q']) → 1 ≤ (3 : Int) →
        ∃ r rest, res = r :: rest ∧ r.score = 1 ∧
          ∃ i w, ([[0]] : List Vec).get? i = some w ∧
            w = encode0 (PyDoc.str ['q']) ∧
            (⟨some [[0]], [PyDoc.str ['a']], [['m']],
              ⟨none, none, none⟩⟩ : RAGState).documents.get? i =
                some r.text ∧
            (⟨some [[0]], [PyDoc.str ['a']], [['m']],
              ⟨none, none, none⟩⟩ : RAGState).metadata.get? i =
                some r.metadata) :=
  c7_score_formula encode0 ⟨some [[0]], [PyDoc.str ['a']], [['m']],
    ⟨none, none, none⟩⟩ [[0]] ['q'] 3 rfl rfl rfl (by decide)
